import Mathlib

/-!
Verification of the thumbnail-downloader pipeline
(`download_thumbnails.py`, `fetch_youtube_data.py`).

The Python sources are shallowly embedded: pure functions become Lean
functions, the delimited-text layer (`csv` module with `delimiter=';'`,
`QUOTE_MINIMAL`, `doublequote`) is modelled at the character level, the
stateful orchestrator (`main`) becomes explicit state passing over a
`RunState`, and the network is an oracle parameter.  Files are `List Char`
(the `utf-8-sig` byte-order mark is added on write and stripped on read by
the text codec, so it cancels and is not modelled).
-/

namespace Pipeline

/-! ## Character-level model of the `csv` module (dialect `delimiter=';'`,
`quotechar='"'`, `doublequote=True`, `quoting=QUOTE_MINIMAL`, files opened
with `newline=''`). -/

/-- One delimited-text field value. -/
abbrev Field := List Char

/-- One record (line) of the delimited file: its ordered field values. -/
abbrev Record := List Field

/-- Characters that force `QUOTE_MINIMAL` quoting: the delimiter `;`, the
quote char `"`, and the characters of the `\r\n` line terminator. -/
def isSpecialChar (c : Char) : Bool :=
  c = ';' || c = '"' || c = '\r' || c = '\n'

/-- Characters ending an unquoted field: the delimiter or a newline char. -/
def isFieldEnd (c : Char) : Bool :=
  c = ';' || c = '\r' || c = '\n'

/-- `QUOTE_MINIMAL`: a field is quoted iff it contains a special char. -/
def needsQuote (f : Field) : Bool := f.any isSpecialChar

/-- `doublequote=True`: each `"` in a quoted field is written twice. -/
def escQ : Field → Field
  | [] => []
  | c :: cs => if c = '"' then '"' :: '"' :: escQ cs else c :: escQ cs

/-- Serialize one field.  `lone` is true when the field is the only field of
its record: the writer then quotes an empty field (so the record is not
written as a blank line, which the reader would drop). -/
def serField (lone : Bool) (f : Field) : List Char :=
  if needsQuote f || (lone && f.isEmpty) then '"' :: (escQ f ++ ['"']) else f

/-- Serialize the fields of a record, separated by `;`. -/
def serFields (lone : Bool) : List Field → List Char
  | [] => []
  | [f] => serField lone f
  | f :: fs => serField false f ++ ';' :: serFields lone fs

/-- Serialize one record, terminated by `\r\n` (the writer's default
`lineterminator`). -/
def serRecord (r : Record) : List Char :=
  serFields (r.length == 1) r ++ ['\r', '\n']

/-- Serialize a whole file: the concatenation of its records. -/
def serFile : List Record → List Char
  | [] => []
  | r :: rs => serRecord r ++ serFile rs

/-- Reader, unquoted-field state (`IN_FIELD`): collect chars until the
delimiter, a newline char, or end of input. -/
def parseUnquoted : List Char → Field × List Char
  | [] => ([], [])
  | c :: rest =>
    if isFieldEnd c then ([], c :: rest)
    else
      let fr := parseUnquoted rest
      (c :: fr.1, fr.2)

/-- Reader, quoted-field states.  `sawQ = false` is `IN_QUOTED_FIELD` (every
char is literal, a quote switches state); `sawQ = true` is
`QUOTE_IN_QUOTED_FIELD` (a second quote is a literal `"`, a delimiter or
newline ends the field, and any other char is taken literally with the
field continuing unquoted — the reader's non-strict behaviour). -/
def parseQuotedSt : Bool → List Char → Field × List Char
  | _, [] => ([], [])
  | false, c :: rest =>
    if c = '"' then parseQuotedSt true rest
    else
      let fr := parseQuotedSt false rest
      (c :: fr.1, fr.2)
  | true, c :: rest =>
    if c = '"' then
      let fr := parseQuotedSt false rest
      ('"' :: fr.1, fr.2)
    else if isFieldEnd c then ([], c :: rest)
    else
      let fr := parseUnquoted rest
      (c :: fr.1, fr.2)

/-- Reader, field start (`START_FIELD`): a quote opens a quoted field,
anything else is an unquoted field. -/
def parseField : List Char → Field × List Char
  | [] => ([], [])
  | c :: rest => if c = '"' then parseQuotedSt false rest else parseUnquoted (c :: rest)

/-- Consume one record terminator: `\r\n`, lone `\r`, or lone `\n`. -/
def dropNL : List Char → List Char
  | '\r' :: '\n' :: rest => rest
  | '\r' :: rest => rest
  | '\n' :: rest => rest
  | s => s

/-- Reader, one record: fields separated by `;`, ended by a newline or end
of input.  The fuel bounds the number of fields (the callers pass at least
`input length + 1`, which always suffices). -/
def parseRecordAux : Nat → List Char → Record × List Char
  | 0, s => ([], s)
  | fuel + 1, s =>
    let fr := parseField s
    match fr.2 with
    | [] => ([fr.1], [])
    | c :: r2 =>
      if c = ';' then
        let rr := parseRecordAux fuel r2
        (fr.1 :: rr.1, rr.2)
      else ([fr.1], dropNL (c :: r2))

/-- Reader, whole input: a blank line is the empty record `[]` (as the
`csv` reader yields), otherwise parse one record and continue.  The fuel
bounds the number of records. -/
def parseRecords : Nat → List Char → List Record
  | 0, _ => []
  | _ + 1, [] => []
  | fuel + 1, c :: rest =>
    if c = '\r' || c = '\n' then [] :: parseRecords fuel (dropNL (c :: rest))
    else
      let rr := parseRecordAux ((c :: rest).length + 1) (c :: rest)
      rr.1 :: parseRecords fuel rr.2

/-! ## `CSVHandler` (`download_thumbnails.py` lines 251-293)

A `Row` is the `csv.DictReader` dictionary of one record: an ordered
association list from field name to field value (Python dicts preserve
insertion order; `DictReader` inserts in header order). -/

/-- One dataset row: field name / field value pairs in header order. -/
abbrev Row := List (Field × Field)

namespace CSVHandler

/-- `DictWriter` value extraction: the row's value for a field name.  A
missing key falls back to the writer's `restval` (`None`, written as the
empty field). -/
def lookupVal (k : Field) (r : Row) : Field :=
  match r.find? (fun p => p.1 == k) with
  | some p => p.2
  | none => []

/-- `CSVHandler.read_rows`: parse the file, take the first record as the
header (`DictReader.fieldnames`), drop blank records (as `DictReader`
does), and pair each remaining record with the header.  (For records of
exactly header arity — the only kind `write_rows` produces — `zip` is
exactly `dict(zip(fieldnames, row))`.) -/
def read_rows (content : List Char) : List Row :=
  match parseRecords (content.length + 1) content with
  | [] => []
  | header :: rs => (rs.filter (fun r => !r.isEmpty)).map (fun vals => header.zip vals)

/-- `CSVHandler.write_rows`: an empty row list returns without touching the
file; otherwise the header is `list(rows[0].keys())` and the new file is
the serialized header plus one record per row (written to a temp path and
atomically moved onto the dataset, modelled as replacing the content). -/
def write_rows (rows : List Row) (disk : List Char) : List Char :=
  if rows.isEmpty then disk
  else
    let fieldnames := (rows.headD []).map Prod.fst
    serFile (fieldnames :: rows.map (fun r => fieldnames.map (fun k => lookupVal k r)))

/-- `CSVHandler.verify_integrity`: re-read the file and compare the row
count with the pre-run count; a mismatch raises (`ValueError`). -/
def verify_integrity (original_count count : Nat) : Except String Unit :=
  if count ≠ original_count then Except.error "Row count mismatch" else Except.ok ()

end CSVHandler

/-! ## `ProgressTracker` — the Resume Ledger
(`download_thumbnails.py` lines 40-75) -/

/-- The in-memory ledger state (`self.data`): the completed-id list and the
failed-id-to-reason dict (an insertion-ordered association list).  Both
mutators persist to the progress file before returning; the file content
always mirrors this state, so it is not modelled separately. -/
structure ProgressTracker where
  completed_ids : List String
  failed_ids : List (String × String)
deriving DecidableEq

namespace ProgressTracker

/-- Fresh state: `{'completed_ids': [], 'failed_ids': {}}` (also what a
missing or corrupt progress file loads as). -/
def fresh : ProgressTracker := ⟨[], []⟩

/-- Python dict assignment `d[k] = v`: overwrite in place if the key
exists, else append. -/
def setKey : List (String × String) → String → String → List (String × String)
  | [], k, v => [(k, v)]
  | (k', v') :: rest, k, v =>
    if k' = k then (k, v) :: rest else (k', v') :: setKey rest k v

/-- `mark_completed`: append the id unless already present, then save. -/
def mark_completed (t : ProgressTracker) (id : String) : ProgressTracker :=
  if id ∈ t.completed_ids then t
  else { t with completed_ids := t.completed_ids ++ [id] }

/-- `mark_failed`: record (or overwrite) the failure reason, then save. -/
def mark_failed (t : ProgressTracker) (id reason : String) : ProgressTracker :=
  { t with failed_ids := setKey t.failed_ids id reason }

/-- `is_completed`: membership in the completed-id list. -/
def is_completed (t : ProgressTracker) (id : String) : Bool :=
  t.completed_ids.contains id

end ProgressTracker

/-- One call against the Resume Ledger, for stating invariants over
arbitrary call sequences. -/
inductive TrackerOp where
  | markCompleted (id : String)
  | markFailed (id reason : String)

def applyOp (t : ProgressTracker) : TrackerOp → ProgressTracker
  | TrackerOp.markCompleted id => t.mark_completed id
  | TrackerOp.markFailed id reason => t.mark_failed id reason

def applyOps (t : ProgressTracker) (ops : List TrackerOp) : ProgressTracker :=
  ops.foldl applyOp t

/-! ## String helpers shared by the orchestrator -/

/-- Python `str.strip()` whitespace (the ASCII whitespace chars; the
further Unicode space chars Python also strips never occur here). -/
def isPySpace (c : Char) : Bool :=
  c = ' ' || c = '\t' || c = '\n' || c = '\r' || c = '\x0b' || c = '\x0c'

/-- Python `s.strip()`. -/
def pyStrip (s : String) : String :=
  ⟨((s.data.dropWhile isPySpace).reverse.dropWhile isPySpace).reverse⟩

/-- `p` is an initial run of `s` (Python `s.startswith(p)`). -/
def hasPre : List Char → List Char → Bool
  | [], _ => true
  | _ :: _, [] => false
  | a :: ps, b :: ss => a = b && hasPre ps ss

/-- `n` occurs as a contiguous run of `h` (Python `n in h`). -/
def hasSub (n : List Char) : List Char → Bool
  | [] => n.isEmpty
  | c :: t => hasPre n (c :: t) || hasSub n t

/-! ## `SkipChecker` (`download_thumbnails.py` lines 78-106) -/

namespace SkipChecker

/-- `SkipChecker.should_skip`: empty (or whitespace-only) references are
not skipped; a reference starting with `images/` is skipped; the
placeholder (`unsplash.com` / `placeholder`) branch and the final
fall-through both return `False`. -/
def should_skip (image_url : String) : Bool :=
  if image_url = "" || pyStrip image_url = "" then false
  else
    let u := pyStrip image_url
    if hasPre "images/".data u.data then true
    else if hasSub "unsplash.com".data u.data || hasSub "placeholder".data u.data then
      false
    else false

end SkipChecker

/-! ## `InstagramScraper.parse_instagram_url`
(`download_thumbnails.py` lines 129-141) -/

/-- The `reel` alternative of `(p|reel)/([^/]+)` at position `t`. -/
def igMatchReel (t : List Char) : Option (Bool × List Char) :=
  match t with
  | 'r' :: 'e' :: 'e' :: 'l' :: '/' :: rest =>
    let pid := rest.takeWhile (fun c => c ≠ '/')
    if pid.isEmpty then none else some (false, pid)
  | _ => none

/-- One attempt of `https://www\.instagram\.com/(p|reel)/([^/]+)` anchored
at the head of `s`: the alternation tries `p` first, then `reel`; `[^/]+`
greedily takes at least one non-`/` char.  The Bool is true for `p`. -/
def igMatchAt (s : List Char) : Option (Bool × List Char) :=
  let pre := "https://www.instagram.com/".data
  if hasPre pre s then
    let t := s.drop pre.length
    match t with
    | 'p' :: '/' :: rest =>
      let pid := rest.takeWhile (fun c => c ≠ '/')
      if pid.isEmpty then igMatchReel t else some (true, pid)
    | _ => igMatchReel t
  else none

/-- `re.search`: try the pattern at every position, left to right. -/
def igSearch : List Char → Option (Bool × List Char)
  | [] => none
  | c :: rest =>
    match igMatchAt (c :: rest) with
    | some r => some r
    | none => igSearch rest

/-- `parse_instagram_url`: `re.search` of the pattern over the URL;
`'post'` when group 1 is `p`, else `'reel'`, plus the extracted id. -/
def parse_instagram_url (url : String) : Option (String × String) :=
  match igSearch url.data with
  | some (isPost, pid) => some (if isPost then "post" else "reel", ⟨pid⟩)
  | none => none

/-! ## `ImageDownloader` (`download_thumbnails.py` lines 188-248) -/

def MAX_FILE_SIZE : Nat := 10 * 1024 * 1024

/-- The observables of one image GET: transport/HTTP success
(`raise_for_status`), the declared `Content-Length` (if any), and whether
the streamed body passes `PIL` image verification. -/
structure DlResponse where
  ok : Bool
  contentLength : Option Nat
  verifyOk : Bool
deriving DecidableEq

/-- Result and file-system effects of `ImageDownloader.download`:
whether it returned `True`, whether the `.tmp` file was ever created, and
whether a file was moved onto the final asset path. -/
structure DlOutcome where
  success : Bool
  tempCreated : Bool
  finalCreated : Bool
deriving DecidableEq

namespace ImageDownloader

/-- Lines 220-234: stream to the `.tmp` file (created here), verify it as
an image (failure deletes the temp file and fails), then atomically move
it onto the final path. -/
def finishDl (resp : DlResponse) : DlOutcome :=
  if resp.verifyOk then ⟨true, true, true⟩ else ⟨false, true, false⟩

/-- `ImageDownloader.download` (lines 196-238): the skip-existing
shortcut, transport errors, then the `Content-Length` ceiling check —
which happens before the temp file is opened — then streaming and
verification. -/
def download (skip_existing target_exists : Bool) (resp : DlResponse) : DlOutcome :=
  if skip_existing && target_exists then ⟨true, false, false⟩
  else if !resp.ok then ⟨false, false, false⟩
  else
    match resp.contentLength with
    | some n => if n > MAX_FILE_SIZE then ⟨false, false, false⟩ else finishDl resp
    | none => finishDl resp

end ImageDownloader

/-! ## `parse_row_range` (`download_thumbnails.py` lines 309-326) -/

/-- Python `s.split(sep)` for a one-char separator (empty input gives one
empty part, adjacent separators give empty parts). -/
def splitOnChar (sep : Char) : List Char → List (List Char)
  | [] => [[]]
  | c :: rest =>
    if c = sep then [] :: splitOnChar sep rest
    else
      match splitOnChar sep rest with
      | [] => [[c]]
      | g :: gs => (c :: g) :: gs

/-- The numeric value of a nonempty all-digit char list. -/
def digitsVal (ds : List Char) : Option Nat :=
  if ds.isEmpty then none
  else ds.foldlM (fun acc c =>
    if c.isDigit then some (acc * 10 + (c.toNat - 48)) else none) 0

/-- Python `int(s)`: optional surrounding whitespace, optional sign, at
least one digit (`ValueError` is `none`; digit-group underscores are not
modelled — they never occur in row specs). -/
def pyInt (s : List Char) : Option Int :=
  let t := ((s.dropWhile isPySpace).reverse.dropWhile isPySpace).reverse
  match t with
  | '-' :: ds => (digitsVal ds).map (fun n => -(n : Int))
  | '+' :: ds => (digitsVal ds).map (fun n => (n : Int))
  | ds => (digitsVal ds).map (fun n => (n : Int))

/-- Python `range(start, stop)` over ints, as a list (empty when
`stop ≤ start`). -/
def intRange (start stop : Int) : List Int :=
  (List.range (stop - start).toNat).map (fun k => start + (k : Int))

/-- Python `sorted(set(l))` for a list of ints. -/
def sortedDedup (l : List Int) : List Int :=
  l.dedup.insertionSort (· ≤ ·)

/-- The row numbers contributed by one comma-separated part: a single
number, or the inclusive `start-end` range (`range(start, end + 1)`). -/
def partVals (part : List Char) : Option (List Int) :=
  if part.contains '-' then
    match splitOnChar '-' part with
    | [a, b] => do
      let s ← pyInt a
      let e ← pyInt b
      pure (intRange s (e + 1))
    | _ => none
  else do
    let n ← pyInt part
    pure [n]

/-- `parse_row_range`: split on commas, collect each part's numbers, and
return `sorted(set(...))`; `none` models the `ValueError` raised on a
malformed part. -/
def parse_row_range (row_spec : String) : Option (List Int) :=
  ((splitOnChar ',' row_spec.data).mapM partVals).map
    (fun ls => sortedDedup ls.flatten)

/-! ## The orchestrator (`download_thumbnails.py` `main`, lines 407-493) -/

/-- One dataset row as the orchestrator sees it: the `Link` field, the
`Görsel URL` (image-reference) field, and all remaining fields, which the
run never touches. -/
structure DataRow where
  link : String
  gorselUrl : String
  others : List (String × String)
deriving DecidableEq

/-- Per-row network oracle: the `fetch_thumbnail_url` result (`none` when
both the oEmbed and OG-tag stages fail) and the download response. -/
structure RowOracle where
  thumb : Option String
  dl : DlResponse
  targetExists : Bool

/-- The per-row terminal outcome, mirroring the orchestrator's branches
(kept as a trace for specification purposes). -/
inductive Outcome where
  | skippedNoUrl
  | skippedLocal
  | skippedCompleted
  | failedInvalidUrl
  | failedFetch
  | failedDownload
  | success (post_id : String)
deriving DecidableEq

/-- The run's aggregated state: the `stats` counters, the `failed_urls`
list, the Resume Ledger, and the outcome trace. -/
structure RunState where
  total : Nat
  downloaded : Nat
  skipped : Nat
  failed : Nat
  failed_urls : List (String × String)
  progress : ProgressTracker
  outcomes : List (Nat × Outcome)
deriving DecidableEq

/-- The body of `main`'s per-row loop (lines 419-480) for the row at
1-based dataset position `idx`: the skip checks, URL parsing, ledger
lookup, thumbnail resolution, download, and the associated bookkeeping.
`--resume` defaults to `True` and cannot be switched off, so the tracker
is always present. -/
def processRow (output_dir : String) (skip_existing : Bool) (oracle : Nat → RowOracle)
    (st : RunState) (idx : Nat) (row : DataRow) : RunState × DataRow :=
  let st := { st with total := st.total + 1 }
  let instagram_url := pyStrip row.link
  let current_image_url := pyStrip row.gorselUrl
  if instagram_url = "" then
    ({ st with skipped := st.skipped + 1,
               outcomes := st.outcomes ++ [(idx, Outcome.skippedNoUrl)] }, row)
  else if SkipChecker.should_skip current_image_url then
    ({ st with skipped := st.skipped + 1,
               outcomes := st.outcomes ++ [(idx, Outcome.skippedLocal)] }, row)
  else
    match parse_instagram_url instagram_url with
    | none =>
      ({ st with failed := st.failed + 1,
                 failed_urls := st.failed_urls ++ [(instagram_url, "Invalid URL")],
                 outcomes := st.outcomes ++ [(idx, Outcome.failedInvalidUrl)] }, row)
    | some (url_type, post_id) =>
      if st.progress.is_completed post_id then
        ({ st with skipped := st.skipped + 1,
                   outcomes := st.outcomes ++ [(idx, Outcome.skippedCompleted)] }, row)
      else
        let fetchFailed :=
          ({ st with failed := st.failed + 1,
                     failed_urls := st.failed_urls
                       ++ [(instagram_url, "Thumbnail URL not found")],
                     progress := st.progress.mark_failed post_id "Thumbnail URL not found",
                     outcomes := st.outcomes ++ [(idx, Outcome.failedFetch)] }, row)
        match (oracle idx).thumb with
        | none => fetchFailed
        | some turl =>
          if turl = "" then fetchFailed
          else
            let filename := url_type ++ "_" ++ post_id ++ ".jpg"
            let res := ImageDownloader.download skip_existing
              (oracle idx).targetExists (oracle idx).dl
            if res.success then
              ({ st with downloaded := st.downloaded + 1,
                         progress := st.progress.mark_completed post_id,
                         outcomes := st.outcomes ++ [(idx, Outcome.success post_id)] },
               { row with gorselUrl := output_dir ++ "/" ++ filename })
            else
              ({ st with failed := st.failed + 1,
                         failed_urls := st.failed_urls
                           ++ [(instagram_url, "Download failed")],
                         progress := st.progress.mark_failed post_id "Download failed",
                         outcomes := st.outcomes ++ [(idx, Outcome.failedDownload)] }, row)

/-- `enumerate(rows, 1)`. -/
def enum1 : Nat → List DataRow → List (Nat × DataRow)
  | _, [] => []
  | i, r :: rs => (i, r) :: enum1 (i + 1) rs

/-- Row filtering (lines 412-416): a row is kept unless a row-index list
was given, is non-empty (Python truthiness of the list), and does not
contain the row's 1-based position. -/
def keepRow (row_indices : Option (List Int)) (i : Nat) : Bool :=
  match row_indices with
  | none => true
  | some l => l.isEmpty || l.contains (i : Int)

/-- `rows_to_process` (lines 412-416). -/
def rows_to_process (rows : List DataRow) (row_indices : Option (List Int)) :
    List (Nat × DataRow) :=
  (enum1 1 rows).filter (fun p => keepRow row_indices p.1)

/-- The per-row loop over `rows_to_process` (line 419), also returning the
updated row objects. -/
def runLoop (output_dir : String) (skip_existing : Bool) (oracle : Nat → RowOracle) :
    RunState → List (Nat × DataRow) → RunState × List (Nat × DataRow)
  | st, [] => (st, [])
  | st, (i, r) :: rest =>
    let pr := processRow output_dir skip_existing oracle st i r
    let rr := runLoop output_dir skip_existing oracle pr.1 rest
    (rr.1, (i, pr.2) :: rr.2)

/-- Python mutates row objects in place, so the `rows` list keeps every
row, with processed entries replaced by their updated versions. -/
def patchRows (rows : List DataRow) (updates : List (Nat × DataRow)) : List DataRow :=
  (enum1 1 rows).map (fun p =>
    match updates.find? (fun u => u.1 == p.1) with
    | some u => u.2
    | none => p.2)

/-- Whether and with what the on-disk dataset was replaced. -/
inductive DiskState where
  | unchanged
  | rewritten (rows : List DataRow)
deriving DecidableEq

/-- The observable outcome of a whole run. -/
structure RunResult where
  state : RunState
  finalRows : List DataRow
  disk : DiskState
  writeCalls : Nat
  exitCode : Nat

def initState (tracker0 : ProgressTracker) : RunState :=
  ⟨0, 0, 0, 0, [], tracker0, []⟩

/-- `main` after the CSV has been read (lines 407-493): run the loop, then
— only if at least one download succeeded — rewrite the CSV once, re-read
it, and compare the row count to the pre-run count (`verify_integrity`); a
mismatch exits with status 1.  `reread_count` is the row count the
post-write re-read observes. -/
def runMain (output_dir : String) (skip_existing : Bool) (tracker0 : ProgressTracker)
    (rows : List DataRow) (row_indices : Option (List Int)) (oracle : Nat → RowOracle)
    (reread_count : Nat) : RunResult :=
  let original_count := rows.length
  let lr := runLoop output_dir skip_existing oracle (initState tracker0)
    (rows_to_process rows row_indices)
  let finalRows := patchRows rows lr.2
  if lr.1.downloaded > 0 then
    match CSVHandler.verify_integrity original_count reread_count with
    | Except.ok _ => ⟨lr.1, finalRows, DiskState.rewritten finalRows, 1, 0⟩
    | Except.error _ => ⟨lr.1, finalRows, DiskState.rewritten finalRows, 1, 1⟩
  else ⟨lr.1, finalRows, DiskState.unchanged, 0, 0⟩

/-- Whether an outcome is a successful download. -/
def isSuccess : Outcome → Bool
  | Outcome.success _ => true
  | _ => false

/-- Whether an outcome is a per-row error (invalid source URL, resolution
failure, or download failure). -/
def isRowError : Outcome → Bool
  | Outcome.failedInvalidUrl => true
  | Outcome.failedFetch => true
  | Outcome.failedDownload => true
  | _ => false

/-- The reason string the orchestrator records for each per-row error. -/
def errReason : Outcome → String
  | Outcome.failedInvalidUrl => "Invalid URL"
  | Outcome.failedFetch => "Thumbnail URL not found"
  | Outcome.failedDownload => "Download failed"
  | _ => ""

/-! ## `YouTubeFetcher.fetch_video_data`
(`fetch_youtube_data.py` lines 77-134) -/

/-- The `snippet.thumbnails` object: the four possible resolution keys,
each optionally carrying a url. -/
structure Thumbnails where
  maxres : Option String
  high : Option String
  medium : Option String
  thumbDefault : Option String
deriving DecidableEq

structure Snippet where
  title : String
  description : String
  publishedAt : String
  thumbnails : Thumbnails
deriving DecidableEq

structure ApiItem where
  snippet : Snippet
deriving DecidableEq

/-- The decoded JSON body of the videos-endpoint response. -/
structure ApiResponse where
  error : Option String
  items : List ApiItem
deriving DecidableEq

structure VideoData where
  title : String
  description : String
  thumbnail_url : Option String
  published_at : String
deriving DecidableEq

/-- Python `x or y` over `.get(...).get('url')` results: an absent entry
or an empty-string url falls through to the next candidate. -/
def pyOr (a b : Option String) : Option String :=
  match a with
  | some s => if s = "" then b else some s
  | none => b

/-- Lines 111-117: `maxres or high or medium or default`. -/
def bestThumb (t : Thumbnails) : Option String :=
  pyOr (pyOr (pyOr t.maxres t.high) t.medium) t.thumbDefault

namespace YouTubeFetcher

/-- `fetch_video_data` given a decoded response body: an `error` key
raises `YouTubeAPIError` (caught, returning `None`); an empty `items`
list returns `None`; otherwise the snippet's title, description and
publish timestamp together with the thumbnail url chosen in the order
`maxres`, `high`, `medium`, `default`.  Transport errors are caught the
same way and correspond to no response body at all. -/
def fetch_video_data (resp : ApiResponse) : Option VideoData :=
  if resp.error.isSome then none
  else
    match resp.items with
    | [] => none
    | item :: _ =>
      some ⟨item.snippet.title, item.snippet.description,
        bestThumb item.snippet.thumbnails, item.snippet.publishedAt⟩

end YouTubeFetcher

/-! ## Round-trip lemmas for the delimited-text layer -/

/-- A continuation is well-placed after a serialized field: it is empty or
begins with a delimiter or newline char. -/
def RestOk (rest : List Char) : Prop :=
  rest = [] ∨ ∃ c r2, rest = c :: r2 ∧ isFieldEnd c = true

theorem isFieldEnd_of_special_not_quote {c : Char} (h : isSpecialChar c = true)
    (hq : c ≠ '"') : isFieldEnd c = true := by
  simp only [isSpecialChar, Bool.or_eq_true, decide_eq_true_eq] at h
  simp only [isFieldEnd, Bool.or_eq_true, decide_eq_true_eq]
  tauto

theorem not_special_not_fieldEnd {c : Char} (h : isSpecialChar c = false) :
    isFieldEnd c = false := by
  simp only [isSpecialChar, Bool.or_eq_false_iff, decide_eq_false_iff_not] at h
  simp only [isFieldEnd, Bool.or_eq_false_iff, decide_eq_false_iff_not]
  tauto

theorem not_special_not_quote {c : Char} (h : isSpecialChar c = false) : c ≠ '"' := by
  simp only [isSpecialChar, Bool.or_eq_false_iff, decide_eq_false_iff_not] at h
  tauto

theorem fieldEnd_not_quote {c : Char} (h : isFieldEnd c = true) : c ≠ '"' := by
  intro hq
  subst hq
  exact absurd h (by decide)

/-- The unquoted parser inverts an unquoted field in front of a well-placed
continuation. -/
theorem parseUnquoted_append (f : Field) (rest : List Char)
    (hf : needsQuote f = false) (hr : RestOk rest) :
    parseUnquoted (f ++ rest) = (f, rest) := by
  induction f with
  | nil =>
    rcases hr with h | ⟨c, r2, rfl, hc⟩
    · subst h; rfl
    · simp [parseUnquoted, hc]
  | cons c f' ih =>
    simp only [needsQuote, List.any_cons, Bool.or_eq_false_iff] at hf
    have hfe : isFieldEnd c = false := not_special_not_fieldEnd hf.1
    simp only [List.cons_append, parseUnquoted, hfe, Bool.false_eq_true, if_false,
      List.append_eq]
    rw [ih hf.2]

theorem parseQuotedSt_false_quote (rest : List Char) :
    parseQuotedSt false ('"' :: rest) = parseQuotedSt true rest := by
  simp [parseQuotedSt]

theorem parseQuotedSt_false_other (c : Char) (rest : List Char) (h : c ≠ '"') :
    parseQuotedSt false (c :: rest)
      = (c :: (parseQuotedSt false rest).1, (parseQuotedSt false rest).2) := by
  simp [parseQuotedSt, h]

theorem parseQuotedSt_true_quote (rest : List Char) :
    parseQuotedSt true ('"' :: rest)
      = ('"' :: (parseQuotedSt false rest).1, (parseQuotedSt false rest).2) := by
  simp [parseQuotedSt]

theorem parseQuotedSt_true_end (c : Char) (rest : List Char) (h : isFieldEnd c = true) :
    parseQuotedSt true (c :: rest) = ([], c :: rest) := by
  have hq : c ≠ '"' := fieldEnd_not_quote h
  simp [parseQuotedSt, hq, h]

/-- The quoted parser inverts a quote-escaped field in front of a closing
quote and a well-placed continuation. -/
theorem parseQuotedSt_escQ (f : Field) (rest : List Char) (hr : RestOk rest) :
    parseQuotedSt false (escQ f ++ '"' :: rest) = (f, rest) := by
  induction f with
  | nil =>
    rcases hr with h | ⟨c, r2, rfl, hc⟩
    · subst h; rfl
    · rw [show escQ [] ++ '"' :: c :: r2 = '"' :: c :: r2 from rfl,
        parseQuotedSt_false_quote, parseQuotedSt_true_end c _ hc]
  | cons c f' ih =>
    by_cases hq : c = '"'
    · subst hq
      rw [show escQ ('"' :: f') ++ '"' :: rest
            = '"' :: '"' :: (escQ f' ++ '"' :: rest) by simp [escQ],
        parseQuotedSt_false_quote, parseQuotedSt_true_quote, ih]
    · rw [show escQ (c :: f') ++ '"' :: rest
            = c :: (escQ f' ++ '"' :: rest) by simp [escQ, hq],
        parseQuotedSt_false_other c _ hq, ih]

/-- The field parser inverts the field serializer in front of a well-placed
continuation. -/
theorem parseField_ser (lone : Bool) (f : Field) (rest : List Char) (hr : RestOk rest) :
    parseField (serField lone f ++ rest) = (f, rest) := by
  unfold serField
  by_cases h : (needsQuote f || (lone && f.isEmpty)) = true
  · rw [if_pos h]
    have : ('"' :: (escQ f ++ ['"'])) ++ rest = '"' :: (escQ f ++ '"' :: rest) := by
      simp
    rw [this, parseField]
    · exact parseQuotedSt_escQ f rest hr
  · rw [if_neg h]
    simp only [Bool.or_eq_true, not_or, Bool.and_eq_true, Bool.not_eq_true] at h
    cases f with
    | nil =>
      rcases hr with hrest | ⟨c, r2, rfl, hc⟩
      · subst hrest; rfl
      · have hq : c ≠ '"' := fieldEnd_not_quote hc
        simp [parseField, hq, parseUnquoted, hc]
    | cons a f' =>
      have hnq : needsQuote (a :: f') = false := h.1
      have ha : isSpecialChar a = false := by
        simp only [needsQuote, List.any_cons, Bool.or_eq_false_iff] at hnq
        exact hnq.1
      have haq : a ≠ '"' := not_special_not_quote ha
      simp only [List.cons_append, parseField, haq, if_false]
      have := parseUnquoted_append (a :: f') rest hnq hr
      simpa using this

/-- The record parser inverts the field-list serializer followed by the
`\r\n` terminator, leaving the continuation untouched. -/
theorem parseRecordAux_ser (lone : Bool) (fs : List Field) (rest : List Char)
    (fuel : Nat) (hne : fs ≠ []) (hfuel : fs.length ≤ fuel) :
    parseRecordAux fuel (serFields lone fs ++ ('\r' :: '\n' :: rest)) = (fs, rest) := by
  induction fs generalizing fuel rest with
  | nil => exact absurd rfl hne
  | cons f fs ih =>
    cases fuel with
    | zero => simp at hfuel
    | succ n =>
      cases fs with
      | nil =>
        have hpf : parseField (serField lone f ++ ('\r' :: '\n' :: rest))
            = (f, '\r' :: '\n' :: rest) :=
          parseField_ser lone f _ (Or.inr ⟨'\r', '\n' :: rest, rfl, by decide⟩)
        simp only [serFields, parseRecordAux, hpf]
        rfl
      | cons g gs =>
        have hpf : parseField (serField false f ++
              (';' :: (serFields lone (g :: gs) ++ ('\r' :: '\n' :: rest))))
            = (f, ';' :: (serFields lone (g :: gs) ++ ('\r' :: '\n' :: rest))) :=
          parseField_ser false f _ (Or.inr ⟨';', _, rfl, by decide⟩)
        have harr : serFields lone (f :: g :: gs) ++ ('\r' :: '\n' :: rest)
            = serField false f ++
              (';' :: (serFields lone (g :: gs) ++ ('\r' :: '\n' :: rest))) := by
          simp [serFields]
        rw [harr]
        simp only [parseRecordAux, hpf, if_pos rfl]
        rw [ih _ _ (by simp) (by simpa using Nat.le_of_succ_le_succ hfuel)]
        simp

/-- A serialized field is empty or starts with a char other than `\r`/`\n`. -/
theorem serField_head (lone : Bool) (f : Field) :
    serField lone f = [] ∨
      ∃ c t, serField lone f = c :: t ∧ c ≠ '\r' ∧ c ≠ '\n' := by
  unfold serField
  by_cases h : (needsQuote f || (lone && f.isEmpty)) = true
  · rw [if_pos h]
    exact Or.inr ⟨'"', _, rfl, by decide, by decide⟩
  · rw [if_neg h]
    cases f with
    | nil => exact Or.inl rfl
    | cons a f' =>
      have hnq : needsQuote (a :: f') = false := by
        revert h
        cases hh : needsQuote (a :: f') <;> simp
      have ha : isSpecialChar a = false := by
        simp only [needsQuote, List.any_cons, Bool.or_eq_false_iff] at hnq
        exact hnq.1
      have h1 : a ≠ '\r' := by
        intro hh
        subst hh
        exact absurd ha (by decide)
      have h2 : a ≠ '\n' := by
        intro hh
        subst hh
        exact absurd ha (by decide)
      exact Or.inr ⟨a, f', rfl, h1, h2⟩

/-- A serialized record is nonempty and starts with a char other than
`\r`/`\n` (so the record-list parser takes the record branch). -/
theorem serRecord_head (r : Record) (hne : r ≠ []) :
    ∃ c t, serRecord r = c :: t ∧ (c = '\r' || c = '\n') = false := by
  cases r with
  | nil => exact absurd rfl hne
  | cons f fs =>
    cases fs with
    | nil =>
      rcases serField_head ((List.length [f] == 1)) f with h | ⟨c, t, hc, h1, h2⟩
      · -- impossible: with `lone = true` an empty field is quoted, so the
        -- serialized field is never empty
        exfalso
        revert h
        unfold serField
        by_cases hc : (needsQuote f || ((List.length [f] == 1) && f.isEmpty)) = true
        · rw [if_pos hc]
          simp
        · rw [if_neg hc]
          intro hf
          subst hf
          exact hc (by decide)
      · refine ⟨c, t ++ ['\r', '\n'], ?_, by simp [h1, h2]⟩
        unfold serRecord serFields
        rw [hc]
        simp
    | cons g gs =>
      have hsf : serFields ((f :: g :: gs).length == 1) (f :: g :: gs)
          = serField false f ++ ';' :: serFields ((f :: g :: gs).length == 1) (g :: gs) := rfl
      rcases serField_head false f with h | ⟨c, t, hc, h1, h2⟩
      · have hr : serRecord (f :: g :: gs)
            = ';' :: (serFields ((f :: g :: gs).length == 1) (g :: gs) ++ ['\r', '\n']) := by
          show serFields ((f :: g :: gs).length == 1) (f :: g :: gs) ++ ['\r', '\n'] = _
          rw [hsf, h]
          simp
        exact ⟨';', _, hr, by decide⟩
      · have hr : serRecord (f :: g :: gs)
            = c :: (t ++ ';' :: serFields ((f :: g :: gs).length == 1) (g :: gs)
                ++ ['\r', '\n']) := by
          show serFields ((f :: g :: gs).length == 1) (f :: g :: gs) ++ ['\r', '\n'] = _
          rw [hsf, hc]
          simp
        exact ⟨c, _, hr, by simp [h1, h2]⟩

/-- The serialized field list of a record is at most one char shorter than
the record's field count is... precisely: `fs.length ≤ length + 1`. -/
theorem len_le_serFields (lone : Bool) (fs : List Field) :
    fs.length ≤ (serFields lone fs).length + 1 := by
  induction fs with
  | nil => simp
  | cons f fs ih =>
    cases fs with
    | nil => simp [serFields]
    | cons g gs =>
      simp only [serFields, List.length_cons, List.length_append] at ih ⊢
      omega

/-- The serialized record's length versus the length of a serialized
field list followed by the terminator and a tail. -/
theorem len_le_serTail (r : Record) (tail : List Char) :
    r.length ≤ (serFields (r.length == 1) r ++ ('\r' :: '\n' :: tail)).length + 1 := by
  have h1 := len_le_serFields (r.length == 1) r
  simp only [List.length_append, List.length_cons]
  omega

/-- A record always serializes to at least two chars (its terminator). -/
theorem serRecord_len_ge (r : Record) : 2 ≤ (serRecord r).length := by
  simp only [serRecord, List.length_append, List.length_cons, List.length_nil]
  omega

/-- A file never serializes to fewer chars than it has records. -/
theorem len_le_serFile (recs : List Record) : recs.length ≤ (serFile recs).length := by
  induction recs with
  | nil => simp [serFile]
  | cons r rs ih =>
    have h2 := serRecord_len_ge r
    simp only [serFile, List.length_cons, List.length_append]
    omega

/-- The record-list parser inverts the file serializer, given enough fuel
and no zero-field records. -/
theorem parseRecords_serFile (recs : List Record) (fuel : Nat)
    (hne : ∀ r ∈ recs, r ≠ []) (hfuel : recs.length ≤ fuel) :
    parseRecords fuel (serFile recs) = recs := by
  induction recs generalizing fuel with
  | nil => cases fuel <;> rfl
  | cons r rs ih =>
    cases fuel with
    | zero => simp at hfuel
    | succ n =>
      have hr : r ≠ [] := hne r (by simp)
      obtain ⟨c, t, hct, hcnl⟩ := serRecord_head r hr
      have hfile : serFile (r :: rs) = c :: (t ++ serFile rs) := by
        simp [serFile, hct]
      rw [hfile]
      simp only [parseRecords, hcnl, Bool.false_eq_true, if_false]
      have heq : c :: (t ++ serFile rs)
          = serFields (r.length == 1) r ++ ('\r' :: '\n' :: serFile rs) := by
        have hback : c :: (t ++ serFile rs) = serRecord r ++ serFile rs := by
          simp [hct]
        rw [hback]
        simp [serRecord]
      rw [heq,
        parseRecordAux_ser (r.length == 1) r (serFile rs) _ hr (len_le_serTail r _)]
      dsimp only
      rw [ih n (fun x hx => hne x (List.mem_cons_of_mem _ hx))
        (Nat.le_of_succ_le_succ (by simpa using hfuel))]

/-- Zipping a row's names with its values restores the row. -/
theorem zip_fst_snd (r : Row) : (r.map Prod.fst).zip (r.map Prod.snd) = r := by
  induction r with
  | nil => rfl
  | cons p r ih => simp [ih]

/-- `DictWriter` value extraction along a row's own (duplicate-free) key
list returns exactly the row's values, in order. -/
theorem map_lookupVal (r : Row) (hnd : (r.map Prod.fst).Nodup) :
    (r.map Prod.fst).map (fun k => CSVHandler.lookupVal k r) = r.map Prod.snd := by
  induction r with
  | nil => rfl
  | cons p r ih =>
    obtain ⟨k, v⟩ := p
    simp only [List.map_cons, List.nodup_cons] at hnd ⊢
    have h1 : CSVHandler.lookupVal k ((k, v) :: r) = v := by
      simp [CSVHandler.lookupVal]
    have hstep : ∀ k' ∈ r.map Prod.fst,
        CSVHandler.lookupVal k' ((k, v) :: r) = CSVHandler.lookupVal k' r := by
      intro k' hk'
      have hkk : k ≠ k' := fun h => hnd.1 (h ▸ hk')
      simp only [CSVHandler.lookupVal, List.find?_cons]
      have : ((k, v).1 == k') = false := by
        simpa using hkk
      rw [this]
    rw [h1, List.map_congr_left hstep, ih hnd.2]

/-- Claim C1: for every dataset of N rows loaded at run start (rows all
carrying the header's duplicate-free, nonempty field-name list, as
`DictReader` produces), a successful rewrite (`write_rows` followed by
re-reading with `read_rows`) yields exactly the same N rows, every field
byte-identical to its in-memory value — in particular every field the run
did not modify is byte-identical to its original value. -/
theorem claim_C1_roundtrip (rows : List Row) (disk : List Char) (h0 : rows ≠ [])
    (hkeys : ∀ r ∈ rows, r.map Prod.fst = (rows.headD []).map Prod.fst)
    (hnd : ((rows.headD []).map Prod.fst).Nodup)
    (hhd : (rows.headD []).map Prod.fst ≠ []) :
    CSVHandler.read_rows (CSVHandler.write_rows rows disk) = rows ∧
    (CSVHandler.read_rows (CSVHandler.write_rows rows disk)).length = rows.length := by
  have hempty : rows.isEmpty = false := by
    cases rows with
    | nil => exact absurd rfl h0
    | cons a l => rfl
  have hread : CSVHandler.read_rows (CSVHandler.write_rows rows disk) = rows := by
    have hwr : CSVHandler.write_rows rows disk
        = serFile (((rows.headD []).map Prod.fst) ::
            rows.map (fun r => ((rows.headD []).map Prod.fst).map
              (fun k => CSVHandler.lookupVal k r))) := by
      simp only [CSVHandler.write_rows, hempty, Bool.false_eq_true, if_false]
    have hall : ∀ x ∈ ((rows.headD []).map Prod.fst) ::
        rows.map (fun r => ((rows.headD []).map Prod.fst).map
          (fun k => CSVHandler.lookupVal k r)), x ≠ [] := by
      intro x hx
      rcases List.mem_cons.mp hx with rfl | hx
      · exact hhd
      · obtain ⟨r, hr, rfl⟩ := List.mem_map.mp hx
        intro hxx
        exact hhd (List.map_eq_nil_iff.mp hxx)
    have hfuel : (((rows.headD []).map Prod.fst) ::
        rows.map (fun r => ((rows.headD []).map Prod.fst).map
          (fun k => CSVHandler.lookupVal k r))).length
        ≤ (serFile (((rows.headD []).map Prod.fst) ::
            rows.map (fun r => ((rows.headD []).map Prod.fst).map
              (fun k => CSVHandler.lookupVal k r)))).length + 1 :=
      le_trans (len_le_serFile _) (Nat.le_succ _)
    have hparse := parseRecords_serFile _ _ hall hfuel
    rw [hwr]
    unfold CSVHandler.read_rows
    rw [hparse]
    dsimp only
    have hfilter : (rows.map (fun r => ((rows.headD []).map Prod.fst).map
          (fun k => CSVHandler.lookupVal k r))).filter (fun r => !r.isEmpty)
        = rows.map (fun r => ((rows.headD []).map Prod.fst).map
          (fun k => CSVHandler.lookupVal k r)) := by
      apply List.filter_eq_self.mpr
      intro a ha
      obtain ⟨r, hr, rfl⟩ := List.mem_map.mp ha
      cases hh : (rows.headD []).map Prod.fst with
      | nil => exact absurd hh hhd
      | cons c t => simp [hh]
    rw [hfilter, List.map_map]
    have hone : ∀ r ∈ rows,
        ((rows.headD []).map Prod.fst).zip
          (((rows.headD []).map Prod.fst).map (fun k => CSVHandler.lookupVal k r)) = r := by
      intro r hr
      have hk := hkeys r hr
      have hnd2 : (r.map Prod.fst).Nodup := by
        rw [hk]
        exact hnd
      rw [← hk, map_lookupVal r hnd2, zip_fst_snd]
    calc rows.map ((fun vals => ((rows.headD []).map Prod.fst).zip vals) ∘
            fun r => ((rows.headD []).map Prod.fst).map (fun k => CSVHandler.lookupVal k r))
        = rows.map id := List.map_congr_left (fun r hr => hone r hr)
      _ = rows := List.map_id rows
  exact ⟨hread, by rw [hread]⟩

/-- Witness for C1: the round-trip at a concrete two-column, one-row
dataset. -/
theorem claim_C1_roundtrip_witness :
    CSVHandler.read_rows (CSVHandler.write_rows [[(['A'], ['1']), (['B'], ['2'])]] [])
      = [[(['A'], ['1']), (['B'], ['2'])]] :=
  (claim_C1_roundtrip [[(['A'], ['1']), (['B'], ['2'])]] [] (by decide)
    (by decide) (by decide) (by decide)).1

/-- Claim C10: rewriting an empty row list is a no-op — `write_rows []`
returns without opening or replacing the file, so the on-disk dataset is
never truncated to a header-only or empty file by a rewrite. -/
theorem claim_C10_write_rows_empty (disk : List Char) :
    CSVHandler.write_rows [] disk = disk := rfl

/-! ## Per-row and loop characterization of the orchestrator -/

/-- Full characterization of one loop iteration: exactly one outcome is
appended; the counters and failure bookkeeping follow the outcome; the row
object is mutated only on success, and then only in its reference field;
the ledger is updated exactly on resolution failure, download failure, or
success. -/
theorem processRow_step (d : String) (se : Bool) (o : Nat → RowOracle)
    (st : RunState) (idx : Nat) (row : DataRow) :
    ∃ oc : Outcome,
      (processRow d se o st idx row).1.outcomes = st.outcomes ++ [(idx, oc)] ∧
      (processRow d se o st idx row).1.total = st.total + 1 ∧
      (processRow d se o st idx row).1.downloaded
        = st.downloaded + (if isSuccess oc then 1 else 0) ∧
      (processRow d se o st idx row).1.failed
        = st.failed + (if isRowError oc then 1 else 0) ∧
      (processRow d se o st idx row).1.failed_urls
        = st.failed_urls
          ++ (if isRowError oc then [(pyStrip row.link, errReason oc)] else []) ∧
      ((processRow d se o st idx row).2 = row ∨
        (∃ pid, oc = Outcome.success pid ∧
          (processRow d se o st idx row).2.link = row.link ∧
          (processRow d se o st idx row).2.others = row.others)) ∧
      (match oc with
       | Outcome.failedFetch => ∃ pid,
           (processRow d se o st idx row).1.progress
             = st.progress.mark_failed pid "Thumbnail URL not found"
       | Outcome.failedDownload => ∃ pid,
           (processRow d se o st idx row).1.progress
             = st.progress.mark_failed pid "Download failed"
       | Outcome.success pid =>
           (processRow d se o st idx row).1.progress
             = st.progress.mark_completed pid
       | _ => (processRow d se o st idx row).1.progress = st.progress) := by
  by_cases h1 : pyStrip row.link = ""
  · have hres : processRow d se o st idx row
        = ({ st with
              total := st.total + 1,
              skipped := st.skipped + 1,
              outcomes := st.outcomes ++ [(idx, Outcome.skippedNoUrl)] }, row) := by
      unfold processRow
      simp [h1]
    exact ⟨Outcome.skippedNoUrl, by simp [hres], by simp [hres],
      by simp [hres, isSuccess], by simp [hres, isRowError],
      by simp [hres, isRowError], Or.inl (by simp [hres]), by simp [hres]⟩
  · by_cases h2 : SkipChecker.should_skip (pyStrip row.gorselUrl) = true
    · have hres : processRow d se o st idx row
          = ({ st with
                total := st.total + 1,
                skipped := st.skipped + 1,
                outcomes := st.outcomes ++ [(idx, Outcome.skippedLocal)] }, row) := by
        unfold processRow
        simp [h1, h2]
      exact ⟨Outcome.skippedLocal, by simp [hres], by simp [hres],
        by simp [hres, isSuccess], by simp [hres, isRowError],
        by simp [hres, isRowError], Or.inl (by simp [hres]), by simp [hres]⟩
    · cases hp : parse_instagram_url (pyStrip row.link) with
      | none =>
        have hres : processRow d se o st idx row
            = ({ st with
                  total := st.total + 1,
                  failed := st.failed + 1,
                  failed_urls := st.failed_urls ++ [(pyStrip row.link, "Invalid URL")],
                  outcomes := st.outcomes ++ [(idx, Outcome.failedInvalidUrl)] }, row) := by
          unfold processRow
          simp [h1, h2, hp]
        exact ⟨Outcome.failedInvalidUrl, by simp [hres], by simp [hres],
          by simp [hres, isSuccess], by simp [hres, isRowError],
          by simp [hres, isRowError, errReason], Or.inl (by simp [hres]),
          by simp [hres]⟩
      | some pr =>
        obtain ⟨ty, pid⟩ := pr
        by_cases hc : st.progress.is_completed pid = true
        · have hres : processRow d se o st idx row
              = ({ st with
                    total := st.total + 1,
                    skipped := st.skipped + 1,
                    outcomes := st.outcomes ++ [(idx, Outcome.skippedCompleted)] }, row) := by
            unfold processRow
            simp [h1, h2, hp, hc]
          exact ⟨Outcome.skippedCompleted, by simp [hres], by simp [hres],
            by simp [hres, isSuccess], by simp [hres, isRowError],
            by simp [hres, isRowError], Or.inl (by simp [hres]), by simp [hres]⟩
        · have hfetch : ∀ hres : processRow d se o st idx row
              = ({ st with
                    total := st.total + 1,
                    failed := st.failed + 1,
                    failed_urls := st.failed_urls
                      ++ [(pyStrip row.link, "Thumbnail URL not found")],
                    progress := st.progress.mark_failed pid "Thumbnail URL not found",
                    outcomes := st.outcomes ++ [(idx, Outcome.failedFetch)] }, row),
              ∃ oc : Outcome,
                (processRow d se o st idx row).1.outcomes = st.outcomes ++ [(idx, oc)] ∧
                (processRow d se o st idx row).1.total = st.total + 1 ∧
                (processRow d se o st idx row).1.downloaded
                  = st.downloaded + (if isSuccess oc then 1 else 0) ∧
                (processRow d se o st idx row).1.failed
                  = st.failed + (if isRowError oc then 1 else 0) ∧
                (processRow d se o st idx row).1.failed_urls
                  = st.failed_urls
                    ++ (if isRowError oc then [(pyStrip row.link, errReason oc)] else []) ∧
                ((processRow d se o st idx row).2 = row ∨
                  (∃ pid2, oc = Outcome.success pid2 ∧
                    (processRow d se o st idx row).2.link = row.link ∧
                    (processRow d se o st idx row).2.others = row.others)) ∧
                (match oc with
                 | Outcome.failedFetch => ∃ pid2,
                     (processRow d se o st idx row).1.progress
                       = st.progress.mark_failed pid2 "Thumbnail URL not found"
                 | Outcome.failedDownload => ∃ pid2,
                     (processRow d se o st idx row).1.progress
                       = st.progress.mark_failed pid2 "Download failed"
                 | Outcome.success pid2 =>
                     (processRow d se o st idx row).1.progress
                       = st.progress.mark_completed pid2
                 | _ => (processRow d se o st idx row).1.progress = st.progress) := by
            intro hres
            exact ⟨Outcome.failedFetch, by simp [hres], by simp [hres],
              by simp [hres, isSuccess], by simp [hres, isRowError],
              by simp [hres, isRowError, errReason], Or.inl (by simp [hres]),
              ⟨pid, by simp [hres]⟩⟩
          cases ht : (o idx).thumb with
          | none =>
            exact hfetch (by unfold processRow; simp [h1, h2, hp, hc, ht])
          | some turl =>
            by_cases hte : turl = ""
            · exact hfetch (by unfold processRow; simp [h1, h2, hp, hc, ht, hte])
            · by_cases hdl : (ImageDownloader.download se (o idx).targetExists
                  (o idx).dl).success = true
              · have hres : processRow d se o st idx row
                    = ({ st with
                          total := st.total + 1,
                          downloaded := st.downloaded + 1,
                          progress := st.progress.mark_completed pid,
                          outcomes := st.outcomes ++ [(idx, Outcome.success pid)] },
                       { row with gorselUrl := d ++ "/" ++ (ty ++ "_" ++ pid ++ ".jpg") }) := by
                  unfold processRow
                  simp [h1, h2, hp, hc, ht, hte, hdl]
                exact ⟨Outcome.success pid, by simp [hres], by simp [hres],
                  by simp [hres, isSuccess], by simp [hres, isRowError],
                  by simp [hres, isRowError],
                  Or.inr ⟨pid, rfl, by simp [hres], by simp [hres]⟩, by simp [hres]⟩
              · have hres : processRow d se o st idx row
                    = ({ st with
                          total := st.total + 1,
                          failed := st.failed + 1,
                          failed_urls := st.failed_urls
                            ++ [(pyStrip row.link, "Download failed")],
                          progress := st.progress.mark_failed pid "Download failed",
                          outcomes := st.outcomes ++ [(idx, Outcome.failedDownload)] },
                       row) := by
                  unfold processRow
                  simp [h1, h2, hp, hc, ht, hte, hdl]
                exact ⟨Outcome.failedDownload, by simp [hres], by simp [hres],
                  by simp [hres, isSuccess], by simp [hres, isRowError],
                  by simp [hres, isRowError, errReason], Or.inl (by simp [hres]),
                  ⟨pid, by simp [hres]⟩⟩

/-- Loop characterization: one outcome per processed pair, with matching
indices; the counters are additive; every updated row traces back to its
input pair and changes only on that pair's success. -/
theorem runLoop_spec (d : String) (se : Bool) (o : Nat → RowOracle) :
    ∀ (l : List (Nat × DataRow)) (st : RunState),
      ∃ tail : List (Nat × Outcome),
        (runLoop d se o st l).1.outcomes = st.outcomes ++ tail ∧
        tail.map Prod.fst = l.map Prod.fst ∧
        (runLoop d se o st l).2.map Prod.fst = l.map Prod.fst ∧
        (runLoop d se o st l).1.total = st.total + l.length ∧
        (runLoop d se o st l).1.downloaded
          = st.downloaded + tail.countP (fun p => isSuccess p.2) ∧
        (∀ u ∈ (runLoop d se o st l).2, ∃ r, (u.1, r) ∈ l ∧
          (u.2 = r ∨ (u.2.link = r.link ∧ u.2.others = r.others ∧
            ∃ pid, (u.1, Outcome.success pid) ∈ tail))) := by
  intro l
  induction l with
  | nil =>
    intro st
    exact ⟨[], by simp [runLoop], rfl, by simp [runLoop], by simp [runLoop],
      by simp [runLoop], by simp [runLoop]⟩
  | cons p rest ih =>
    intro st
    obtain ⟨i, r⟩ := p
    obtain ⟨oc, h1, h2, h3, h4, h5, h6, h7⟩ := processRow_step d se o st i r
    obtain ⟨tail, g1, g2, g3, g4, g5, g6⟩ := ih (processRow d se o st i r).1
    have hl : runLoop d se o st ((i, r) :: rest)
        = ((runLoop d se o (processRow d se o st i r).1 rest).1,
           (i, (processRow d se o st i r).2)
             :: (runLoop d se o (processRow d se o st i r).1 rest).2) := rfl
    refine ⟨(i, oc) :: tail, ?_, ?_, ?_, ?_, ?_, ?_⟩
    · rw [hl]
      dsimp only
      rw [g1, h1]
      simp
    · simp [g2]
    · rw [hl]
      dsimp only
      simp [g3]
    · rw [hl]
      dsimp only
      rw [g4, h2]
      simp
      omega
    · rw [hl]
      dsimp only
      rw [g5, h3, List.countP_cons]
      dsimp only
      by_cases hs : isSuccess oc = true
      · simp [hs]
        omega
      · simp [hs]
    · rw [hl]
      dsimp only
      intro u hu
      rcases List.mem_cons.mp hu with rfl | hu
      · rcases h6 with h6 | ⟨pid, hoc, hlink, hoth⟩
        · exact ⟨r, List.mem_cons_self _ _, Or.inl h6⟩
        · exact ⟨r, List.mem_cons_self _ _,
            Or.inr ⟨hlink, hoth, pid, by rw [hoc]; exact List.mem_cons_self _ _⟩⟩
      · obtain ⟨r2, hr2, hch⟩ := g6 u hu
        refine ⟨r2, List.mem_cons_of_mem _ hr2, ?_⟩
        rcases hch with hch | ⟨ha, hb, pid, hp⟩
        · exact Or.inl hch
        · exact Or.inr ⟨ha, hb, pid, List.mem_cons_of_mem _ hp⟩

/-- Indexing into the 1-based enumeration. -/
theorem enum1_get (rows : List DataRow) :
    ∀ (k i : Nat), (enum1 k rows)[i]? = (rows[i]?).map (fun r => (k + i, r)) := by
  induction rows with
  | nil =>
    intro k i
    simp [enum1]
  | cons r rs ih =>
    intro k i
    cases i with
    | zero => simp [enum1]
    | succ n =>
      have hk : k + 1 + n = k + (n + 1) := by omega
      simp [enum1, ih (k + 1) n, hk]

/-- Membership in the 1-based enumeration determines the underlying row. -/
theorem enum1_mem (rows : List DataRow) :
    ∀ (k : Nat) (p : Nat × DataRow), p ∈ enum1 k rows →
      k ≤ p.1 ∧ rows[p.1 - k]? = some p.2 := by
  induction rows with
  | nil =>
    intro k p hp
    simp [enum1] at hp
  | cons r rs ih =>
    intro k p hp
    rcases List.mem_cons.mp hp with rfl | hp
    · simp
    · obtain ⟨hk, hr⟩ := ih (k + 1) p hp
      refine ⟨by omega, ?_⟩
      have : p.1 - k = (p.1 - (k + 1)) + 1 := by omega
      rw [this]
      simpa using hr

/-- Indexing into the patched row list: the update found for position
`i + 1`, or the original row. -/
theorem patchRows_get (rows : List DataRow) (updates : List (Nat × DataRow)) (i : Nat) :
    (patchRows rows updates)[i]?
      = (rows[i]?).map (fun r =>
          match updates.find? (fun u => u.1 == i + 1) with
          | some u => u.2
          | none => r) := by
  unfold patchRows
  rw [List.getElem?_map, enum1_get rows 1 i]
  have h1 : 1 + i = i + 1 := by omega
  cases rows[i]? with
  | none => simp
  | some r => simp [h1]

/-- `sorted(set(l))` is sorted. -/
theorem sortedDedup_sorted (l : List Int) : (sortedDedup l).Sorted (· ≤ ·) :=
  List.sorted_insertionSort _ _

/-- `sorted(set(l))` has no duplicates. -/
theorem sortedDedup_nodup (l : List Int) : (sortedDedup l).Nodup :=
  ((List.perm_insertionSort _ _).nodup_iff).mpr (List.nodup_dedup l)

/-- `sorted(set(l))` keeps exactly the members of `l`. -/
theorem sortedDedup_mem (l : List Int) (n : Int) : n ∈ sortedDedup l ↔ n ∈ l := by
  unfold sortedDedup
  rw [(List.perm_insertionSort _ _).mem_iff, List.mem_dedup]

/-- `setKey` always leaves the key present. -/
theorem setKey_mem_keys (l : List (String × String)) (k v : String) :
    k ∈ (ProgressTracker.setKey l k v).map Prod.fst := by
  induction l with
  | nil => simp [ProgressTracker.setKey]
  | cons p rest ih =>
    obtain ⟨k', v'⟩ := p
    by_cases h : k' = k
    · simp [ProgressTracker.setKey, h]
    · simp only [ProgressTracker.setKey, if_neg h, List.map_cons, List.mem_cons]
      exact Or.inr ih

/-! ## Claims about the orchestrator -/

/-- Claim C2 (amended): every per-row error is appended to the run's
failure list with its reason and counted as failed, and processing
continues with the next row — the loop processes every selected row
regardless of outcomes.  Resolution and download failures are additionally
recorded into the Resume Ledger as failed(reason); an invalid-source-URL
error, for which no external id was ever parsed, is recorded in the
failure list only and leaves the ledger untouched. -/
theorem claim_C2_error_policy :
    (∀ (d : String) (se : Bool) (o : Nat → RowOracle) (st : RunState) (idx : Nat)
        (row : DataRow) (oc : Outcome),
        (processRow d se o st idx row).1.outcomes = st.outcomes ++ [(idx, oc)] →
        isRowError oc = true →
        (processRow d se o st idx row).1.failed_urls
          = st.failed_urls ++ [(pyStrip row.link, errReason oc)] ∧
        (processRow d se o st idx row).1.failed = st.failed + 1 ∧
        ((oc = Outcome.failedFetch ∨ oc = Outcome.failedDownload) →
          ∃ pid, (processRow d se o st idx row).1.progress
            = st.progress.mark_failed pid (errReason oc)) ∧
        (oc = Outcome.failedInvalidUrl →
          (processRow d se o st idx row).1.progress = st.progress)) ∧
    (∀ (d : String) (se : Bool) (o : Nat → RowOracle) (st : RunState)
        (l : List (Nat × DataRow)),
        (runLoop d se o st l).1.total = st.total + l.length) := by
  constructor
  · intro d se o st idx row oc hoc herr
    obtain ⟨oc2, h1, h2, h3, h4, h5, h6, h7⟩ := processRow_step d se o st idx row
    have hoceq : oc2 = oc := by
      have heq : st.outcomes ++ [(idx, oc2)] = st.outcomes ++ [(idx, oc)] :=
        h1.symm.trans hoc
      simpa using heq
    subst hoceq
    refine ⟨?_, ?_, ?_, ?_⟩
    · rw [h5]
      simp [herr]
    · rw [h4]
      simp [herr]
    · intro hor
      rcases hor with rfl | rfl
      · obtain ⟨pid, hp⟩ := h7
        exact ⟨pid, hp⟩
      · obtain ⟨pid, hp⟩ := h7
        exact ⟨pid, hp⟩
    · intro hoc2
      subst hoc2
      exact h7
  · intro d se o st l
    obtain ⟨tail, _, _, _, h4, _, _⟩ := runLoop_spec d se o l st
    exact h4

/-- Counterexample to C2 as stated: a row whose source URL is invalid ends
in a per-row error that is appended to the failure list but is *not*
recorded into the Resume Ledger — the ledger still has no failed ids. -/
theorem claim_C2_counterexample :
    (processRow "images" false (fun _ => ⟨none, ⟨false, none, false⟩, false⟩)
        (initState ProgressTracker.fresh) 1
        ⟨"https://example.com/x", "", []⟩).1.failed_urls
      = [("https://example.com/x", "Invalid URL")] ∧
    (processRow "images" false (fun _ => ⟨none, ⟨false, none, false⟩, false⟩)
        (initState ProgressTracker.fresh) 1
        ⟨"https://example.com/x", "", []⟩).1.progress
      = ProgressTracker.fresh :=
  ⟨rfl, rfl⟩

/-- Witness for C2 at a concrete resolution failure: the row is counted
failed. -/
theorem claim_C2_error_policy_witness :
    (processRow "images" false (fun _ => ⟨none, ⟨false, none, false⟩, false⟩)
        (initState ProgressTracker.fresh) 1
        ⟨"https://www.instagram.com/p/AB/", "", []⟩).1.failed = 1 := by
  have h := claim_C2_error_policy.1 "images" false
    (fun _ => ⟨none, ⟨false, none, false⟩, false⟩)
    (initState ProgressTracker.fresh) 1 ⟨"https://www.instagram.com/p/AB/", "", []⟩
    Outcome.failedFetch (by decide) (by decide)
  simpa using h.2.1

/-- Claim C3 (amended): the skip check classifies a reference as
already-local exactly when it is nonempty after stripping and starts with
the `images/` output prefix — regardless of any placeholder host in the
reference (the placeholder carve-out is unreachable: non-prefix references
fall through to `False` anyway).  A skipped row undergoes no resolution:
the iteration's result does not depend on the network oracle, and nothing
but the skip counter and the outcome trace changes. -/
theorem claim_C3_skip_check :
    (∀ u : String, SkipChecker.should_skip u = true
        ↔ (pyStrip u ≠ "" ∧ hasPre "images/".data (pyStrip u).data = true)) ∧
    (∀ (d : String) (se : Bool) (o1 o2 : Nat → RowOracle) (st : RunState) (idx : Nat)
        (row : DataRow),
        pyStrip row.link ≠ "" →
        SkipChecker.should_skip (pyStrip row.gorselUrl) = true →
        processRow d se o1 st idx row
          = ({ st with
                total := st.total + 1,
                skipped := st.skipped + 1,
                outcomes := st.outcomes ++ [(idx, Outcome.skippedLocal)] }, row) ∧
        processRow d se o1 st idx row = processRow d se o2 st idx row) := by
  constructor
  · intro u
    unfold SkipChecker.should_skip
    by_cases h0 : pyStrip u = ""
    · simp [h0]
    · have hu : ¬(u = "") := by
        intro h
        apply h0
        rw [h]
        rfl
      by_cases hpre : hasPre "images/".data (pyStrip u).data = true
      · simp [h0, hu, hpre]
      · simp [h0, hu, hpre]
  · intro d se o1 o2 st idx row h1 h2
    have e1 : processRow d se o1 st idx row
        = ({ st with
              total := st.total + 1,
              skipped := st.skipped + 1,
              outcomes := st.outcomes ++ [(idx, Outcome.skippedLocal)] }, row) := by
      unfold processRow
      simp [h1, h2]
    have e2 : processRow d se o2 st idx row
        = ({ st with
              total := st.total + 1,
              skipped := st.skipped + 1,
              outcomes := st.outcomes ++ [(idx, Outcome.skippedLocal)] }, row) := by
      unfold processRow
      simp [h1, h2]
    exact ⟨e1, e1.trans e2.symm⟩

/-- Counterexample to C3 as stated: a reference that names a placeholder
host *is* skipped when it also starts with the output prefix — the prefix
check fires first, so "references at a placeholder host are not skipped"
fails. -/
theorem claim_C3_counterexample :
    SkipChecker.should_skip "images/unsplash.com/a.jpg" = true ∧
    hasSub "unsplash.com".data (pyStrip "images/unsplash.com/a.jpg").data = true := by
  decide

/-- Witness for C3: a concrete already-local row is skipped with no other
state change. -/
theorem claim_C3_skip_check_witness :
    processRow "images" false (fun _ => ⟨some "t", ⟨true, none, true⟩, false⟩)
        (initState ProgressTracker.fresh) 1 ⟨"https://x", "images/a.jpg", []⟩
      = (⟨1, 0, 1, 0, [], ProgressTracker.fresh, [(1, Outcome.skippedLocal)]⟩,
         ⟨"https://x", "images/a.jpg", []⟩) := by
  rw [(claim_C3_skip_check.2 "images" false
    (fun _ => ⟨some "t", ⟨true, none, true⟩, false⟩)
    (fun _ => ⟨some "t", ⟨true, none, true⟩, false⟩)
    (initState ProgressTracker.fresh) 1 ⟨"https://x", "images/a.jpg", []⟩
    (by decide) (by decide)).1]
  rfl

/-- Claim C4: immediately after the dataset rewrite the file is re-read
and its row count compared with the pre-run count — a mismatch raises the
integrity error and the run exits with status 1; the exit status is 1
*exactly* in that case, so per-row failures alone never make the run
fatal. -/
theorem claim_C4_integrity_fatal :
    (∀ original_count count : Nat,
        CSVHandler.verify_integrity original_count count = Except.ok ()
          ↔ count = original_count) ∧
    (∀ (d : String) (se : Bool) (t0 : ProgressTracker) (rows : List DataRow)
        (ri : Option (List Int)) (o : Nat → RowOracle) (rc : Nat),
        (runMain d se t0 rows ri o rc).exitCode = 1
          ↔ (0 < (runMain d se t0 rows ri o rc).state.downloaded ∧ rc ≠ rows.length)) := by
  constructor
  · intro oc rc
    unfold CSVHandler.verify_integrity
    by_cases h : rc ≠ oc
    · simp [h]
    · simp [h]
      tauto
  · intro d se t0 rows ri o rc
    unfold runMain
    dsimp only
    by_cases hd : (runLoop d se o (initState t0)
        (rows_to_process rows ri)).1.downloaded > 0
    · rw [if_pos hd]
      unfold CSVHandler.verify_integrity
      by_cases hrc : rc ≠ rows.length
      · rw [if_pos hrc]
        simpa using ⟨hd, hrc⟩
      · rw [if_neg hrc]
        simp
        tauto
    · rw [if_neg hd]
      simp
      intro h
      exact absurd h hd

/-- Claim C5: the rewrite is invoked at most once per run, at run end, and
exactly when at least one row succeeded; when no row succeeds the on-disk
dataset is left unchanged; and a row's in-memory record can differ from
the loaded one only in its reference field and only when that row has a
success outcome. -/
theorem claim_C5_single_rewrite :
    ∀ (d : String) (se : Bool) (t0 : ProgressTracker) (rows : List DataRow)
      (ri : Option (List Int)) (o : Nat → RowOracle) (rc : Nat),
      (runMain d se t0 rows ri o rc).writeCalls ≤ 1 ∧
      ((runMain d se t0 rows ri o rc).writeCalls = 1
        ↔ ∃ p ∈ (runMain d se t0 rows ri o rc).state.outcomes, isSuccess p.2 = true) ∧
      ((¬∃ p ∈ (runMain d se t0 rows ri o rc).state.outcomes, isSuccess p.2 = true) →
        (runMain d se t0 rows ri o rc).disk = DiskState.unchanged) ∧
      (∀ (i : Nat) (r r2 : DataRow), rows[i]? = some r →
        (runMain d se t0 rows ri o rc).finalRows[i]? = some r2 →
        r2 = r ∨ (r2.link = r.link ∧ r2.others = r.others ∧
          ∃ pid, (i + 1, Outcome.success pid)
            ∈ (runMain d se t0 rows ri o rc).state.outcomes)) := by
  intro d se t0 rows ri o rc
  obtain ⟨tail, g1, g2, g3, g4, g5, g6⟩ :=
    runLoop_spec d se o (rows_to_process rows ri) (initState t0)
  have hrm : (runMain d se t0 rows ri o rc).state
        = (runLoop d se o (initState t0) (rows_to_process rows ri)).1 ∧
      (runMain d se t0 rows ri o rc).writeCalls
        = (if 0 < (runLoop d se o (initState t0)
            (rows_to_process rows ri)).1.downloaded then 1 else 0) ∧
      ((runMain d se t0 rows ri o rc).state.downloaded = 0 →
        (runMain d se t0 rows ri o rc).disk = DiskState.unchanged) ∧
      (runMain d se t0 rows ri o rc).finalRows
        = patchRows rows (runLoop d se o (initState t0) (rows_to_process rows ri)).2 := by
    unfold runMain
    dsimp only
    by_cases h : (runLoop d se o (initState t0)
        (rows_to_process rows ri)).1.downloaded > 0
    · rcases hv : CSVHandler.verify_integrity rows.length rc with u | e
      · simp [h, hv]
        omega
      · simp [h, hv]
        omega
    · simp [h]
  have houtc : (runLoop d se o (initState t0) (rows_to_process rows ri)).1.outcomes
      = tail := by
    rw [g1]
    rfl
  have hdl : (runLoop d se o (initState t0) (rows_to_process rows ri)).1.downloaded
      = tail.countP (fun p => isSuccess p.2) := by
    rw [g5]
    simp [initState]
  have hsucc : 0 < (runLoop d se o (initState t0)
        (rows_to_process rows ri)).1.downloaded
      ↔ ∃ p ∈ (runMain d se t0 rows ri o rc).state.outcomes, isSuccess p.2 = true := by
    rw [hdl, hrm.1, houtc]
    exact List.countP_pos_iff
  refine ⟨?_, ?_, ?_, ?_⟩
  · rw [hrm.2.1]
    split <;> omega
  · rw [hrm.2.1, ← hsucc]
    by_cases h : 0 < (runLoop d se o (initState t0)
        (rows_to_process rows ri)).1.downloaded
    · rw [if_pos h]
      simpa using h
    · rw [if_neg h]
      simpa using h
  · intro hns
    apply hrm.2.2.1
    rw [hrm.1, hdl]
    have h2 : ¬ 0 < (runLoop d se o (initState t0)
        (rows_to_process rows ri)).1.downloaded :=
      fun hpos => hns (hsucc.mp hpos)
    rw [hdl] at h2
    omega
  · intro i r r2 hr hr2
    rw [hrm.2.2.2, patchRows_get, hr] at hr2
    simp only [Option.map_some', Option.some.injEq] at hr2
    cases hfind : (runLoop d se o (initState t0)
        (rows_to_process rows ri)).2.find? (fun u => u.1 == i + 1) with
    | none =>
      rw [hfind] at hr2
      exact Or.inl hr2.symm
    | some u =>
      rw [hfind] at hr2
      have hu : u ∈ (runLoop d se o (initState t0) (rows_to_process rows ri)).2 :=
        List.mem_of_find?_eq_some hfind
      have hui : u.1 = i + 1 := by
        have := List.find?_some hfind
        simpa using this
      obtain ⟨r3, hr3, hch⟩ := g6 u hu
      have hr3mem : (u.1, r3) ∈ enum1 1 rows := by
        have h5 : (u.1, r3) ∈ enum1 1 rows ∧ keepRow ri u.1 = true := by
          simpa [rows_to_process] using hr3
        exact h5.1
      obtain ⟨hk, hget⟩ := enum1_mem rows 1 (u.1, r3) hr3mem
      have hr3r : r3 = r := by
        have : rows[i]? = some r3 := by
          have h2 : u.1 - 1 = i := by omega
          rw [← h2]
          exact hget
        rw [hr] at this
        exact (Option.some.injEq _ _ ▸ this).symm
      subst hr3r
      rcases hch with hch | ⟨ha, hb, pid, hp⟩
      · exact Or.inl (hr2 ▸ hch)
      · refine Or.inr ⟨hr2 ▸ ha, hr2 ▸ hb, pid, ?_⟩
        rw [hrm.1, houtc]
        rw [hui] at hp
        exact hp

/-- Witness for C5: a concrete run in which no row succeeds leaves the
on-disk dataset untouched. -/
theorem claim_C5_single_rewrite_witness :
    (runMain "images" false ProgressTracker.fresh [⟨"", "", []⟩] none
        (fun _ => ⟨none, ⟨false, none, false⟩, false⟩) 1).disk
      = DiskState.unchanged :=
  (claim_C5_single_rewrite "images" false ProgressTracker.fresh [⟨"", "", []⟩] none
    (fun _ => ⟨none, ⟨false, none, false⟩, false⟩) 1).2.2.1 (by decide)

/-- Claim C6 (amended): a download whose declared content length exceeds
`MAX_FILE_SIZE` is rejected before any byte reaches disk — neither the
temp file nor the final asset file is created — and the row is recorded in
the Resume Ledger and the failure list as failed with the *generic* reason
"Download failed" (the size detail is only logged, not recorded). -/
theorem claim_C6_size_ceiling :
    (∀ (se te : Bool) (resp : DlResponse) (n : Nat),
        resp.contentLength = some n → MAX_FILE_SIZE < n → (se && te) = false →
        ImageDownloader.download se te resp
          = { success := false, tempCreated := false, finalCreated := false }) ∧
    (∀ (d : String) (se : Bool) (o : Nat → RowOracle) (st : RunState) (idx : Nat)
        (row : DataRow) (ty pid turl : String),
        pyStrip row.link ≠ "" →
        SkipChecker.should_skip (pyStrip row.gorselUrl) = false →
        parse_instagram_url (pyStrip row.link) = some (ty, pid) →
        st.progress.is_completed pid = false →
        (o idx).thumb = some turl → turl ≠ "" →
        (ImageDownloader.download se (o idx).targetExists (o idx).dl).success = false →
        (processRow d se o st idx row).1.failed_urls
          = st.failed_urls ++ [(pyStrip row.link, "Download failed")] ∧
        (processRow d se o st idx row).1.progress
          = st.progress.mark_failed pid "Download failed" ∧
        (processRow d se o st idx row).2 = row) := by
  constructor
  · intro se te resp n hcl hn hse
    unfold ImageDownloader.download
    rw [hse]
    by_cases hok : resp.ok
    · simp [hok, hcl, hn]
    · simp [hok]
  · intro d se o st idx row ty pid turl h1 h2 hp hc ht hte hdl
    have hres : processRow d se o st idx row
        = ({ st with
              total := st.total + 1,
              failed := st.failed + 1,
              failed_urls := st.failed_urls
                ++ [(pyStrip row.link, "Download failed")],
              progress := st.progress.mark_failed pid "Download failed",
              outcomes := st.outcomes ++ [(idx, Outcome.failedDownload)] },
           row) := by
      unfold processRow
      simp [h1, h2, hp, hc, ht, hte, hdl]
    exact ⟨by rw [hres], by rw [hres], by rw [hres]⟩

/-- Counterexample to C6 as stated: at a concrete oversize download the
recorded reason is the generic "Download failed", which carries no size
information — not a size-related reason. -/
theorem claim_C6_counterexample :
    (processRow "images" false
        (fun _ => ⟨some "http://t", ⟨true, some (MAX_FILE_SIZE + 1), true⟩, false⟩)
        (initState ProgressTracker.fresh) 1
        ⟨"https://www.instagram.com/p/AB/", "", []⟩).1.progress.failed_ids
      = [("AB", "Download failed")] ∧
    hasSub "size".data "Download failed".data = false ∧
    hasSub "Size".data "Download failed".data = false ∧
    hasSub "large".data "Download failed".data = false := by
  refine ⟨rfl, ?_, ?_, ?_⟩ <;> decide

/-- Witness for C6: the concrete oversize response is rejected with no
file created. -/
theorem claim_C6_size_ceiling_witness :
    ImageDownloader.download false false ⟨true, some (MAX_FILE_SIZE + 1), true⟩
      = { success := false, tempCreated := false, finalCreated := false } :=
  claim_C6_size_ceiling.1 false false ⟨true, some (MAX_FILE_SIZE + 1), true⟩
    (MAX_FILE_SIZE + 1) rfl (by decide) rfl

/-- Claim C7 (amended): the row-range selector parses a comma-separated
list of single 1-based row numbers and inclusive start-end ranges into the
deduplicated, sorted union; when the resulting set is non-empty, a row
whose 1-based position is outside it is never processed — no outcome (and
hence no resolution or ledger update) is recorded for it and its row is
returned unchanged.  (When the set is empty the selector is ignored and
every row is processed.) -/
theorem claim_C7_row_range :
    parse_row_range "1-3,5,7-8" = some [1, 2, 3, 5, 7, 8] ∧
    (∀ (s : String) (L : List Int), parse_row_range s = some L →
        L.Sorted (· ≤ ·) ∧ L.Nodup ∧
        ∃ parts : List (List Int),
          (splitOnChar ',' s.data).mapM partVals = some parts ∧
          ∀ n : Int, n ∈ L ↔ n ∈ parts.flatten) ∧
    (∀ (d : String) (se : Bool) (t0 : ProgressTracker) (rows : List DataRow)
        (L : List Int) (o : Nat → RowOracle) (rc : Nat) (j : Nat),
        L ≠ [] → ¬((j : Int) ∈ L) → 1 ≤ j →
        (∀ oc : Outcome,
          ((j, oc) : Nat × Outcome)
            ∉ (runMain d se t0 rows (some L) o rc).state.outcomes) ∧
        (runMain d se t0 rows (some L) o rc).finalRows[j - 1]? = rows[j - 1]?) := by
  refine ⟨by decide, ?_, ?_⟩
  · intro s L hL
    unfold parse_row_range at hL
    cases hm : (splitOnChar ',' s.data).mapM partVals with
    | none =>
      rw [hm] at hL
      simp at hL
    | some parts =>
      rw [hm] at hL
      simp only [Option.map_some', Option.some.injEq] at hL
      subst hL
      exact ⟨sortedDedup_sorted _, sortedDedup_nodup _, parts, rfl,
        fun n => sortedDedup_mem _ n⟩
  · intro d se t0 rows L o rc j hL hj hj1
    have hkeep : keepRow (some L) j = false := by
      have h1 : L.isEmpty = false := by
        cases L with
        | nil => exact absurd rfl hL
        | cons a l => rfl
      have h2 : L.contains (j : Int) = false := by
        simp [List.contains, hj]
      unfold keepRow
      dsimp only
      rw [h1, h2]
      rfl
    obtain ⟨tail, g1, g2, g3, g4, g5, g6⟩ :=
      runLoop_spec d se o (rows_to_process rows (some L)) (initState t0)
    have hnotin : ∀ x : Nat × DataRow, x ∈ rows_to_process rows (some L) → x.1 ≠ j := by
      intro x hx hxj
      have h5 : x ∈ enum1 1 rows ∧ keepRow (some L) x.1 = true := by
        simpa [rows_to_process] using hx
      have h6 := h5.2
      rw [hxj, hkeep] at h6
      exact absurd h6 (by simp)
    have hstate : (runMain d se t0 rows (some L) o rc).state
        = (runLoop d se o (initState t0) (rows_to_process rows (some L))).1 := by
      unfold runMain
      dsimp only
      by_cases h : (runLoop d se o (initState t0)
          (rows_to_process rows (some L))).1.downloaded > 0
      · rcases hv : CSVHandler.verify_integrity rows.length rc with u | e
        · simp [h, hv]
        · simp [h, hv]
      · simp [h]
    have hfinal : (runMain d se t0 rows (some L) o rc).finalRows
        = patchRows rows (runLoop d se o (initState t0)
            (rows_to_process rows (some L))).2 := by
      unfold runMain
      dsimp only
      by_cases h : (runLoop d se o (initState t0)
          (rows_to_process rows (some L))).1.downloaded > 0
      · rcases hv : CSVHandler.verify_integrity rows.length rc with u | e
        · simp [h, hv]
        · simp [h, hv]
      · simp [h]
    constructor
    · intro oc hmem
      rw [hstate, g1] at hmem
      have hmem2 : ((j, oc) : Nat × Outcome) ∈ tail := by
        simpa [initState] using hmem
      have : j ∈ tail.map Prod.fst := List.mem_map_of_mem _ hmem2
      rw [g2] at this
      obtain ⟨x, hx, hxj⟩ := List.mem_map.mp this
      exact hnotin x hx hxj
    · rw [hfinal, patchRows_get]
      have hfind : (runLoop d se o (initState t0)
            (rows_to_process rows (some L))).2.find? (fun u => u.1 == (j - 1) + 1)
          = none := by
        apply List.find?_eq_none.mpr
        intro x hx
        have hx1 : x.1 ∈ (rows_to_process rows (some L)).map Prod.fst := by
          rw [← g3]
          exact List.mem_map_of_mem _ hx
        obtain ⟨y, hy, hyx⟩ := List.mem_map.mp hx1
        have hxj : x.1 ≠ j := hyx ▸ hnotin y hy
        have hjj : (j - 1) + 1 = j := by omega
        rw [hjj]
        simpa using hxj
      rw [hfind]
      cases rows[j - 1]? with
      | none => rfl
      | some r => rfl

/-- Counterexample to C7 as stated: the inverted range `"2-1"` parses to
the empty set, and a run given that empty selection still processes row 1
(which is not in the set). -/
theorem claim_C7_counterexample :
    parse_row_range "2-1" = some [] ∧
    (runMain "images" false ProgressTracker.fresh [⟨"", "", []⟩] (some [])
        (fun _ => ⟨none, ⟨false, none, false⟩, false⟩) 1).state.outcomes
      = [(1, Outcome.skippedNoUrl)] := by
  exact ⟨by decide, rfl⟩

/-- Witness for C7: with selection `{2}` over a one-row dataset, row 1 is
untouched. -/
theorem claim_C7_row_range_witness :
    (runMain "images" false ProgressTracker.fresh [⟨"", "", []⟩] (some [2])
        (fun _ => ⟨none, ⟨false, none, false⟩, false⟩) 1).finalRows[0]?
      = some ⟨"", "", []⟩ := by
  have h := (claim_C7_row_range.2.2 "images" false ProgressTracker.fresh
    [⟨"", "", []⟩] [2] (fun _ => ⟨none, ⟨false, none, false⟩, false⟩) 1 1
    (by decide) (by decide) (by decide)).2
  simpa using h

/-- Claim C8: for the video source type, resolution by external id fails
(`None`) on a reported API-level error or an empty result set, and on
success returns the snippet's title, description and publish timestamp
plus the highest-available-resolution thumbnail in the preference order
maxres, high, medium, default (a thumbnail entry counts as available when
it carries a nonempty url). -/
theorem claim_C8_video_resolution :
    (∀ resp : ApiResponse, resp.error.isSome = true →
        YouTubeFetcher.fetch_video_data resp = none) ∧
    (∀ resp : ApiResponse, resp.items = [] →
        YouTubeFetcher.fetch_video_data resp = none) ∧
    (∀ (resp : ApiResponse) (item : ApiItem) (rest : List ApiItem),
        resp.error = none → resp.items = item :: rest →
        YouTubeFetcher.fetch_video_data resp
          = some ⟨item.snippet.title, item.snippet.description,
              bestThumb item.snippet.thumbnails, item.snippet.publishedAt⟩) ∧
    (∀ (t : Thumbnails) (u : String),
        t.maxres = some u → u ≠ "" → bestThumb t = some u) ∧
    (∀ (t : Thumbnails) (u : String),
        (t.maxres = none ∨ t.maxres = some "") →
        t.high = some u → u ≠ "" → bestThumb t = some u) ∧
    (∀ (t : Thumbnails) (u : String),
        (t.maxres = none ∨ t.maxres = some "") →
        (t.high = none ∨ t.high = some "") →
        t.medium = some u → u ≠ "" → bestThumb t = some u) ∧
    (∀ t : Thumbnails,
        (t.maxres = none ∨ t.maxres = some "") →
        (t.high = none ∨ t.high = some "") →
        (t.medium = none ∨ t.medium = some "") →
        bestThumb t = t.thumbDefault) := by
  refine ⟨?_, ?_, ?_, ?_, ?_, ?_, ?_⟩
  · intro resp herr
    unfold YouTubeFetcher.fetch_video_data
    simp [herr]
  · intro resp hitems
    unfold YouTubeFetcher.fetch_video_data
    cases he : resp.error.isSome
    · simp [he, hitems]
    · simp [he]
  · intro resp item rest herr hitems
    unfold YouTubeFetcher.fetch_video_data
    simp [herr, hitems]
  · intro t u hm hu
    unfold bestThumb pyOr
    simp [hm, hu]
  · intro t u hm hh hu
    unfold bestThumb pyOr
    rcases hm with hm | hm <;> simp [hm, hh, hu]
  · intro t u hm hh hmed hu
    unfold bestThumb pyOr
    rcases hm with hm | hm <;> rcases hh with hh | hh <;> simp [hm, hh, hmed, hu]
  · intro t hm hh hmed
    unfold bestThumb pyOr
    rcases hm with hm | hm <;> rcases hh with hh | hh <;>
      rcases hmed with hmed | hmed <;> simp [hm, hh, hmed]

/-- Witness for C8: a concrete response with `maxres` absent and `high`
present resolves to the `high` thumbnail along with the metadata. -/
theorem claim_C8_video_resolution_witness :
    YouTubeFetcher.fetch_video_data
        ⟨none, [⟨⟨"T", "D", "2024-01-01T00:00:00Z",
          ⟨none, some "http://hq", none, none⟩⟩⟩]⟩
      = some ⟨"T", "D", some "http://hq", "2024-01-01T00:00:00Z"⟩ := by
  rw [claim_C8_video_resolution.2.2.1
    ⟨none, [⟨⟨"T", "D", "2024-01-01T00:00:00Z",
      ⟨none, some "http://hq", none, none⟩⟩⟩]⟩
    ⟨⟨"T", "D", "2024-01-01T00:00:00Z", ⟨none, some "http://hq", none, none⟩⟩⟩
    [] rfl rfl]
  rw [claim_C8_video_resolution.2.2.2.2.1
    ⟨none, some "http://hq", none, none⟩ "http://hq" (Or.inl rfl) rfl
    (by decide)]

/-- Claim C9: completion in the Resume Ledger is permanent and takes
precedence over failure — once an id is marked completed it stays
completed under any later sequence of `mark_completed`/`mark_failed`
calls; marking an already-completed id again is a no-op (no duplicate is
ever appended); and after `mark_completed` then `mark_failed` the id sits
in the completed set and the failed map simultaneously. -/
theorem claim_C9_ledger_monotone :
    (∀ (t : ProgressTracker) (x : String) (ops : List TrackerOp),
        t.is_completed x = true → (applyOps t ops).is_completed x = true) ∧
    (∀ (t : ProgressTracker) (x : String),
        t.is_completed x = true → t.mark_completed x = t) ∧
    (∀ (t : ProgressTracker) (x : String),
        t.completed_ids.Nodup → (t.mark_completed x).completed_ids.Nodup) ∧
    (∀ (t : ProgressTracker) (x r : String),
        ((t.mark_completed x).mark_failed x r).is_completed x = true ∧
        x ∈ (((t.mark_completed x).mark_failed x r).failed_ids).map Prod.fst) := by
  have hcomp : ∀ (t : ProgressTracker) (x : String),
      (t.mark_completed x).is_completed x = true := by
    intro t x
    unfold ProgressTracker.mark_completed ProgressTracker.is_completed
    by_cases h : x ∈ t.completed_ids
    · simp [h, List.contains, List.elem_eq_mem]
    · simp [h, List.contains, List.elem_eq_mem]
  have hstep : ∀ (t : ProgressTracker) (x : String) (op : TrackerOp),
      t.is_completed x = true → (applyOp t op).is_completed x = true := by
    intro t x op h
    cases op with
    | markCompleted y =>
      unfold applyOp ProgressTracker.mark_completed
      by_cases hy : y ∈ t.completed_ids
      · simpa [hy] using h
      · simp only [hy, if_false]
        unfold ProgressTracker.is_completed at h ⊢
        simp only [List.contains, List.elem_eq_mem, decide_eq_true_eq,
          List.mem_append] at h ⊢
        exact Or.inl h
    | markFailed y r =>
      unfold applyOp ProgressTracker.mark_failed
      exact h
  refine ⟨?_, ?_, ?_, ?_⟩
  · intro t x ops
    induction ops generalizing t with
    | nil => exact fun h => h
    | cons op ops ih =>
      intro h
      exact ih (applyOp t op) (hstep t x op h)
  · intro t x h
    unfold ProgressTracker.mark_completed
    unfold ProgressTracker.is_completed at h
    simp only [List.contains, List.elem_eq_mem, decide_eq_true_eq] at h
    simp [h]
  · intro t x hnd
    unfold ProgressTracker.mark_completed
    by_cases h : x ∈ t.completed_ids
    · simpa [h] using hnd
    · simp only [h, if_false]
      rw [List.nodup_append]
      exact ⟨hnd, List.nodup_singleton x, by simpa using h⟩
  · intro t x r
    constructor
    · have := hcomp t x
      unfold ProgressTracker.mark_failed ProgressTracker.is_completed at *
      exact this
    · unfold ProgressTracker.mark_failed
      exact setKey_mem_keys _ x r

/-- Witness for C9: after completing `"a"`, a later failure mark and
another completion leave `"a"` completed. -/
theorem claim_C9_ledger_monotone_witness :
    (applyOps (ProgressTracker.fresh.mark_completed "a")
        [TrackerOp.markFailed "a" "oops", TrackerOp.markCompleted "a"]).is_completed "a"
      = true :=
  claim_C9_ledger_monotone.1 (ProgressTracker.fresh.mark_completed "a") "a"
    [TrackerOp.markFailed "a" "oops", TrackerOp.markCompleted "a"] (by decide)

end Pipeline
